import Mathlib

/-!
# rescript-test: the lint and build configuration records

The repository consists of two declarative configuration modules:

* `eslint.config.mjs` exports an array holding one override record;
* `vite.config.js` exports `defineConfig({...})`, a record with a base path,
  two plugin instances and the dev-server watcher exclusions.

JavaScript object literals are embedded as structures, string-keyed object
literals used as mappings (`plugins`, `rules`) as association lists in source
order, arrays as lists.  The imported plugin values are opaque: the
definitions are parametric in a type `P` of plugin values.
-/

namespace RescriptTest

/-! ## `eslint.config.mjs` -/

/-- One element of the array exported by `eslint.config.mjs`: an object
literal with the keys `files`, `plugins` and `rules`. -/
structure Override (P : Type) where
  files : List String
  plugins : List (String × P)
  rules : List (String × String)

/-- The default export of `eslint.config.mjs`, as a function of the value
imported from `eslint-plugin-react-hooks`. -/
def eslintConfig {P : Type} (reactHooks : P) : List (Override P) :=
  [ { files := ["src/**/*.res.mjs"],
      plugins := [("react-hooks", reactHooks)],
      rules :=
        [ ("react-hooks/rules-of-hooks", "error"),
          ("react-hooks/exhaustive-deps", "off"),
          ("react-hooks/immutability", "off") ] } ]

/-! ## `vite.config.js` -/

/-- The options object literal passed to `react(...)`. -/
structure ReactOptions where
  «include» : List String
deriving DecidableEq

/-- The object literal under `server.watch`. -/
structure WatchOptions where
  ignored : List String
deriving DecidableEq

/-- The object literal under `server`. -/
structure ServerOptions where
  watch : WatchOptions
deriving DecidableEq

/-- The object literal passed to `defineConfig`. -/
structure UserConfig (P : Type) where
  base : String
  plugins : List P
  server : ServerOptions

/-- Modelled from the spec: `defineConfig` is imported from the bundler and is
not part of this repository; the spec describes the exported build
configuration as the record itself, so the helper returns its argument. -/
def defineConfig {P : Type} (config : UserConfig P) : UserConfig P := config

/-- The default export of `vite.config.js`, as a function of the two imported
plugin factories `tailwindcss` and `react`. -/
def viteConfig {P : Type} (tailwindcss : Unit → P) (react : ReactOptions → P) :
    UserConfig P :=
  defineConfig
    { base := "/rescript-test/",
      plugins :=
        [ tailwindcss (),
          react { «include» := ["**/*.res.mjs"] } ],
      server :=
        { watch :=
            { ignored := ["**/lib/bs/**", "**/lib/ocaml/**", "**/lib/rescript.lock"] } } }

/-! ## Glob matching

The patterns in both files are interpreted by the consuming tools.  The
matcher below covers the constructs that occur in the repository's patterns:
literal characters, `*` inside a path segment and the segment `**`. -/

/-- Split a path or a pattern into its `/`-separated segments. -/
def segments : List Char → List (List Char)
  | [] => [[]]
  | c :: cs =>
    if c = '/' then [] :: segments cs
    else
      match segments cs with
      | [] => [[c]]
      | s :: ss => (c :: s) :: ss

/-- The remainders of a segment after `*` has consumed zero or more
characters other than `/`. -/
def starTails : List Char → List (List Char)
  | [] => [[]]
  | c :: cs => (c :: cs) :: (if c = '/' then [] else starTails cs)

/-- Modelled from the spec: matching of one pattern segment against one path
segment, where `*` spans any characters other than `/` and every other
character stands for itself.  The matcher itself belongs to the consuming
tools and is not part of this repository. -/
def segMatch : List Char → List Char → Bool
  | [], s => s.isEmpty
  | c :: pat, s =>
    if c = '*' then (starTails s).any (fun t => segMatch pat t)
    else
      match s with
      | [] => false
      | d :: rest => decide (c = d) && segMatch pat rest

/-- All suffixes of a list of segments, the whole list first. -/
def segTails : List (List Char) → List (List (List Char))
  | [] => [[]]
  | s :: ss => (s :: ss) :: segTails ss

/-- Modelled from the spec: matching of a pattern against a path, both given
as lists of segments, where the segment `**` spans zero or more directory
segments and every other pattern segment matches exactly one path segment.
The matcher itself belongs to the consuming tools and is not part of this
repository. -/
def segsMatch : List (List Char) → List (List Char) → Bool
  | [], ss => ss.isEmpty
  | p :: ps, ss =>
    if p = ['*', '*'] then (segTails ss).any (fun t => segsMatch ps t)
    else
      match ss with
      | [] => false
      | s :: rest => segMatch p s && segsMatch ps rest

/-- Whether the path `path` matches the glob `pat`. -/
def globMatch (pat path : String) : Bool :=
  segsMatch (segments pat.data) (segments path.data)

/-- The path has a directory segment named `lib`: some segment is `lib` and
at least one further segment follows it. -/
def underLibDir (path : String) : Prop :=
  ∃ pre post, segments path.data = pre ++ "lib".data :: post ∧ post ≠ []

/-- A glob of the form `<dir>/**`: a directory and everything beneath it. -/
def isDirectoryGlob (g : String) : Prop :=
  ∃ dir : List Char, dir ≠ [] ∧ g.data = dir ++ "/**".data

/-- The options records with which `vite.config.js` calls `react`, read off
the exported record by letting every plugin value be the record of the call
that produced it (`none` for the argument-less `tailwindcss()`). -/
def reactCalls : List ReactOptions :=
  (viteConfig (fun _ => none) (fun o => some o)).plugins.filterMap id

/-- Inverse of `segments`: the segments written out with `/` between them. -/
def joinSegs : List (List Char) → List Char
  | [] => []
  | [s] => s
  | s :: t :: r => s ++ '/' :: joinSegs (t :: r)

/-! ## Path segments -/

theorem segments_ne_nil (p : List Char) : segments p ≠ [] := by
  cases p with
  | nil => simp [segments]
  | cons c cs =>
    by_cases hc : c = '/'
    · simp [segments, hc]
    · cases h : segments cs <;> simp [segments, hc, h]

theorem joinSegs_segments (p : List Char) : joinSegs (segments p) = p := by
  induction p with
  | nil => simp [segments, joinSegs]
  | cons c cs ih =>
    by_cases hc : c = '/'
    · cases h : segments cs with
      | nil => exact absurd h (segments_ne_nil cs)
      | cons t r =>
        rw [h] at ih
        simp [segments, hc, h, joinSegs, ih]
    · cases h : segments cs with
      | nil => exact absurd h (segments_ne_nil cs)
      | cons s ss =>
        rw [h] at ih
        cases ss with
        | nil =>
          simp only [joinSegs] at ih
          simp [segments, hc, h, joinSegs, ih]
        | cons t r =>
          simp only [joinSegs] at ih
          simp [segments, hc, h, joinSegs, ih]

theorem suffix_joinSegs_append (pre : List (List Char)) (x : List Char) :
    x <:+ joinSegs (pre ++ [x]) := by
  induction pre with
  | nil => simp [joinSegs]
  | cons a pre ih =>
    cases hp : pre ++ [x] with
    | nil => simp at hp
    | cons t r =>
      rw [hp] at ih
      simp only [List.cons_append, hp, joinSegs]
      exact ih.trans ((List.suffix_cons _ _).trans (List.suffix_append _ _))

/-- The last segment of a path is a suffix of the path. -/
theorem last_segment_suffix (p : List Char) (pre : List (List Char)) (x : List Char)
    (h : segments p = pre ++ [x]) : x <:+ p := by
  have := suffix_joinSegs_append pre x
  rwa [← h, joinSegs_segments] at this

/-- A first segment that is followed by another one is, together with the
separator, a prefix of the path. -/
theorem first_segment_prefix (p : List Char) (s t : List Char) (r : List (List Char))
    (h : segments p = s :: t :: r) : s ++ ['/'] <+: p := by
  have hj := joinSegs_segments p
  rw [h] at hj
  simp only [joinSegs] at hj
  exact ⟨joinSegs (t :: r), by simpa using hj⟩

/-! ## The matcher -/

theorem starTails_suffix {s t : List Char} (h : t ∈ starTails s) : t <:+ s := by
  induction s with
  | nil =>
    simp [starTails] at h
    subst h
    exact List.suffix_refl _
  | cons c cs ih =>
    simp only [starTails, List.mem_cons] at h
    rcases h with h | h
    · subst h
      exact List.suffix_refl _
    · by_cases hc : c = '/'
      · simp [hc] at h
      · simp only [hc, if_false] at h
        exact (ih h).trans (List.suffix_cons _ _)

theorem segTails_suffix {ss t : List (List Char)} (h : t ∈ segTails ss) : t <:+ ss := by
  induction ss with
  | nil =>
    simp [segTails] at h
    subst h
    exact List.suffix_refl _
  | cons s ss ih =>
    simp only [segTails, List.mem_cons] at h
    rcases h with h | h
    · subst h
      exact List.suffix_refl _
    · exact (ih h).trans (List.suffix_cons _ _)

/-- A pattern segment without `*` matches only itself. -/
theorem segMatch_literal {pat : List Char} (hp : '*' ∉ pat) {s : List Char}
    (h : segMatch pat s = true) : s = pat := by
  induction pat generalizing s with
  | nil => simpa [segMatch] using h
  | cons c pat ih =>
    have hc : c ≠ '*' := fun e => hp (by simp [e])
    have hp2 : '*' ∉ pat := fun e => hp (List.mem_cons_of_mem _ e)
    cases s with
    | nil => simp [segMatch, hc] at h
    | cons d rest =>
      simp only [segMatch, hc, if_false, Bool.and_eq_true, decide_eq_true_eq] at h
      rw [h.1, ih hp2 h.2]

/-- A pattern segment `*lit`, with no further `*`, matches only segments
ending in `lit`. -/
theorem segMatch_star_literal {lit : List Char} (hp : '*' ∉ lit) {s : List Char}
    (h : segMatch ('*' :: lit) s = true) : lit <:+ s := by
  simp only [segMatch, if_true, List.any_eq_true] at h
  obtain ⟨t, ht, hm⟩ := h
  have := segMatch_literal hp hm
  subst this
  exact starTails_suffix ht

theorem segsMatch_globstar {ps ss : List (List Char)}
    (h : segsMatch (['*', '*'] :: ps) ss = true) :
    ∃ pre t, ss = pre ++ t ∧ segsMatch ps t = true := by
  simp only [segsMatch, if_true, List.any_eq_true] at h
  obtain ⟨t, ht, hm⟩ := h
  obtain ⟨pre, hpre⟩ := segTails_suffix ht
  exact ⟨pre, t, hpre.symm, hm⟩

theorem segsMatch_literal {lit : List Char} (hp : '*' ∉ lit) {ps ss : List (List Char)}
    (h : segsMatch (lit :: ps) ss = true) :
    ∃ rest, ss = lit :: rest ∧ segsMatch ps rest = true := by
  have hne : lit ≠ ['*', '*'] := fun e => hp (by simp [e])
  cases ss with
  | nil => simp [segsMatch, hne] at h
  | cons s rest =>
    simp only [segsMatch, hne, if_false, Bool.and_eq_true] at h
    exact ⟨rest, by rw [segMatch_literal hp h.1], h.2⟩

theorem segsMatch_single {p : List Char} (hne : p ≠ ['*', '*']) {ss : List (List Char)}
    (h : segsMatch [p] ss = true) : ∃ x, ss = [x] ∧ segMatch p x = true := by
  cases ss with
  | nil => simp [segsMatch, hne] at h
  | cons s rest =>
    simp only [segsMatch, hne, if_false, Bool.and_eq_true, List.isEmpty_iff] at h
    exact ⟨s, by rw [h.2], h.1⟩

/-! ## The patterns of the two configuration files -/

/-- Shape of the paths matched by the lint override's glob. -/
theorem lintGlob_shape (p : String) (h : globMatch "src/**/*.res.mjs" p = true) :
    ∃ mid x, segments p.data = "src".data :: (mid ++ [x]) ∧ ".res.mjs".data <:+ x := by
  have hs : segments "src/**/*.res.mjs".data
      = ["src".data, ['*', '*'], '*' :: ".res.mjs".data] := by decide
  unfold globMatch at h
  rw [hs] at h
  obtain ⟨rest, hrest, h2⟩ := segsMatch_literal (by decide) h
  obtain ⟨mid, t, ht, h3⟩ := segsMatch_globstar h2
  obtain ⟨x, hx, h4⟩ := segsMatch_single (by decide) h3
  exact ⟨mid, x, by rw [hrest, ht, hx], segMatch_star_literal (by decide) h4⟩

/-- Prepending a segment to a path keeps a match of a pattern that starts
with `**`. -/
theorem segsMatch_globstar_cons {ps ss : List (List Char)} (s : List Char)
    (h : segsMatch (['*', '*'] :: ps) ss = true) :
    segsMatch (['*', '*'] :: ps) (s :: ss) = true := by
  simp only [segsMatch, if_true] at h ⊢
  simp [segTails, h]

/-- The lint glob is the include glob of `react` below the directory `src`. -/
theorem lintGlob_imp_includeGlob (p : String)
    (h : globMatch "src/**/*.res.mjs" p = true) : globMatch "**/*.res.mjs" p = true := by
  have hs : segments "src/**/*.res.mjs".data
      = "src".data :: segments "**/*.res.mjs".data := by decide
  have hi : segments "**/*.res.mjs".data = [['*', '*'], '*' :: ".res.mjs".data] := by decide
  unfold globMatch at h ⊢
  rw [hs] at h
  obtain ⟨rest, hrest, h2⟩ := segsMatch_literal (by decide) h
  rw [hrest]
  rw [hi] at h2 ⊢
  exact segsMatch_globstar_cons _ h2

/-- A pattern `**/lib/<name>...` matches only paths with a segment `lib`
directly followed by the segment `<name>`. -/
theorem libGlob_shape {name : List Char} (hn : '*' ∉ name) {ps ss : List (List Char)}
    (h : segsMatch (['*', '*'] :: "lib".data :: name :: ps) ss = true) :
    ∃ pre post, ss = pre ++ "lib".data :: name :: post ∧ segsMatch ps post = true := by
  obtain ⟨pre, t, ht, h2⟩ := segsMatch_globstar h
  obtain ⟨r1, hr1, h3⟩ := segsMatch_literal (by decide) h2
  obtain ⟨r2, hr2, h4⟩ := segsMatch_literal hn h3
  exact ⟨pre, r2, by rw [ht, hr1, hr2], h4⟩

/-- Every pattern of the watcher-exclusion list matches only paths with a
directory segment `lib`. -/
theorem ignored_underLibDir (g : String)
    (hg : g ∈ ["**/lib/bs/**", "**/lib/ocaml/**", "**/lib/rescript.lock"])
    (p : String) (h : globMatch g p = true) : underLibDir p := by
  simp only [List.mem_cons, List.mem_singleton, List.not_mem_nil, or_false] at hg
  unfold globMatch at h
  rcases hg with hg | hg | hg <;> subst hg
  · have hs : segments "**/lib/bs/**".data
        = [['*', '*'], "lib".data, "bs".data, ['*', '*']] := by decide
    rw [hs] at h
    obtain ⟨pre, post, hp, _⟩ := libGlob_shape (by decide) h
    exact ⟨pre, _, hp, by simp⟩
  · have hs : segments "**/lib/ocaml/**".data
        = [['*', '*'], "lib".data, "ocaml".data, ['*', '*']] := by decide
    rw [hs] at h
    obtain ⟨pre, post, hp, _⟩ := libGlob_shape (by decide) h
    exact ⟨pre, _, hp, by simp⟩
  · have hs : segments "**/lib/rescript.lock".data
        = [['*', '*'], "lib".data, "rescript.lock".data] := by decide
    rw [hs] at h
    obtain ⟨pre, post, hp, _⟩ := libGlob_shape (by decide) h
    exact ⟨pre, _, hp, by simp⟩

/-! ## The lint configuration -/

/-- C1: the single override record exported by `eslint.config.mjs` has the
files list `["src/**/*.res.mjs"]`, and its rules mapping has exactly three
entries, with distinct keys: `react-hooks/rules-of-hooks` maps to `error`,
`react-hooks/exhaustive-deps` and `react-hooks/immutability` map to `off`. -/
theorem lint_rules_exact {P : Type} (reactHooks : P) :
    ∃ o : Override P, eslintConfig reactHooks = [o] ∧
      o.files = ["src/**/*.res.mjs"] ∧
      o.rules.length = 3 ∧
      (o.rules.map Prod.fst).Nodup ∧
      o.rules.lookup "react-hooks/rules-of-hooks" = some "error" ∧
      o.rules.lookup "react-hooks/exhaustive-deps" = some "off" ∧
      o.rules.lookup "react-hooks/immutability" = some "off" := by
  refine ⟨_, rfl, rfl, rfl, ?_, ?_, ?_, ?_⟩
  · show (["react-hooks/rules-of-hooks", "react-hooks/exhaustive-deps",
      "react-hooks/immutability"] : List String).Nodup
    decide
  · show List.lookup "react-hooks/rules-of-hooks"
      [("react-hooks/rules-of-hooks", "error"), ("react-hooks/exhaustive-deps", "off"),
        ("react-hooks/immutability", "off")] = some "error"
    decide
  · show List.lookup "react-hooks/exhaustive-deps"
      [("react-hooks/rules-of-hooks", "error"), ("react-hooks/exhaustive-deps", "off"),
        ("react-hooks/immutability", "off")] = some "off"
    decide
  · show List.lookup "react-hooks/immutability"
      [("react-hooks/rules-of-hooks", "error"), ("react-hooks/exhaustive-deps", "off"),
        ("react-hooks/immutability", "off")] = some "off"
    decide

/-- C2: a path that matches a files glob of the lint override ends with the
compiled-output suffix `.res.mjs` and starts with `src/`; consequently a path
that does not end in `.res.mjs` does not match, for example a hand-written
`.res`, `.js` or plain `.mjs` file. -/
theorem lint_glob_only_compiled {P : Type} (reactHooks : P) (g : String)
    (hg : ∃ o ∈ eslintConfig reactHooks, g ∈ o.files) :
    (∀ p : String, globMatch g p = true →
        ".res.mjs".data <:+ p.data ∧ "src/".data <+: p.data) ∧
      (∀ p : String, ¬ ".res.mjs".data <:+ p.data → globMatch g p = false) ∧
      globMatch g "src/App.res" = false ∧
      globMatch g "src/main.js" = false ∧
      globMatch g "src/util.mjs" = false := by
  obtain ⟨o, ho, hgo⟩ := hg
  simp only [eslintConfig, List.mem_singleton] at ho
  subst ho
  simp only [List.mem_singleton] at hgo
  subst hgo
  have hsuf : ∀ p : String, globMatch "src/**/*.res.mjs" p = true →
      ".res.mjs".data <:+ p.data := by
    intro p h
    obtain ⟨mid, x, hseg, hx⟩ := lintGlob_shape p h
    exact hx.trans (last_segment_suffix p.data ("src".data :: mid) x (by simpa using hseg))
  refine ⟨fun p h => ⟨hsuf p h, ?_⟩, ?_, by decide, by decide, by decide⟩
  · obtain ⟨mid, x, hseg, _⟩ := lintGlob_shape p h
    cases hm : mid ++ [x] with
    | nil => simp at hm
    | cons t r =>
      rw [hm] at hseg
      exact first_segment_prefix p.data "src".data t r hseg
  · intro p hp
    cases hm : globMatch "src/**/*.res.mjs" p with
    | false => rfl
    | true => exact absurd (hsuf p hm) hp

theorem lint_glob_only_compiled_witness :
    ".res.mjs".data <:+ "src/components/App.res.mjs".data ∧
      "src/".data <+: "src/components/App.res.mjs".data :=
  (lint_glob_only_compiled () "src/**/*.res.mjs"
    ⟨_, List.mem_singleton.2 rfl, List.mem_singleton.2 rfl⟩).1
    "src/components/App.res.mjs" (by decide)

/-- C7: the lint configuration is a sequence of exactly one override record,
whose files list, plugins mapping and rules mapping are all present (one
glob, one plugin, three rules), and every value of the rules mapping is one
of `error`, `off`, `warn`, in fact `error` or `off`. -/
theorem lint_config_shape {P : Type} (reactHooks : P) (o : Override P)
    (ho : o ∈ eslintConfig reactHooks) :
    (eslintConfig reactHooks).length = 1 ∧
      o.files.length = 1 ∧ o.plugins.length = 1 ∧ o.rules.length = 3 ∧
      ∀ kv ∈ o.rules, kv.2 ∈ ["error", "off", "warn"] ∧ kv.2 ∈ ["error", "off"] := by
  simp only [eslintConfig, List.mem_singleton] at ho
  subst ho
  refine ⟨rfl, rfl, rfl, rfl, ?_⟩
  intro kv hkv
  simp only [List.mem_cons, List.mem_singleton, List.not_mem_nil, or_false] at hkv
  rcases hkv with hkv | hkv | hkv <;> subst hkv <;> decide

theorem lint_config_shape_witness :
    (eslintConfig ()).length = 1 ∧
      ∀ kv ∈ [("react-hooks/rules-of-hooks", "error"),
          ("react-hooks/exhaustive-deps", "off"),
          ("react-hooks/immutability", "off")],
        kv.2 ∈ ["error", "off", "warn"] ∧ kv.2 ∈ ["error", "off"] :=
  have h := lint_config_shape () _ (List.mem_singleton.2 rfl)
  ⟨h.1, h.2.2.2.2⟩

/-- C10: every key of the rules mapping has the form `<namespace>/<rule-name>`
with a non-empty rule name free of `/`, where the namespace is a key of the
same record's plugins mapping, namely `react-hooks`; conversely every key of
the plugins mapping is the namespace of some rule. -/
theorem lint_rules_refer_to_plugins {P : Type} (reactHooks : P) (o : Override P)
    (ho : o ∈ eslintConfig reactHooks) :
    (∀ k ∈ o.rules.map Prod.fst, ∃ ns name : List Char,
        k.data = ns ++ '/' :: name ∧ name ≠ [] ∧ '/' ∉ name ∧
        String.mk ns ∈ o.plugins.map Prod.fst ∧ ns = "react-hooks".data) ∧
      (∀ ns ∈ o.plugins.map Prod.fst, ∃ k ∈ o.rules.map Prod.fst, ∃ name : List Char,
        name ≠ [] ∧ k.data = ns.data ++ '/' :: name) := by
  simp only [eslintConfig, List.mem_singleton] at ho
  subst ho
  constructor
  · intro k hk
    simp only [List.map, List.mem_cons, List.mem_singleton, List.not_mem_nil, or_false] at hk
    rcases hk with hk | hk | hk <;> subst hk
    · exact ⟨_, "rules-of-hooks".data, rfl, by decide, by decide,
        List.mem_singleton.2 rfl, rfl⟩
    · exact ⟨_, "exhaustive-deps".data, rfl, by decide, by decide,
        List.mem_singleton.2 rfl, rfl⟩
    · exact ⟨_, "immutability".data, rfl, by decide, by decide,
        List.mem_singleton.2 rfl, rfl⟩
  · intro ns hns
    simp only [List.map, List.mem_singleton] at hns
    subst hns
    exact ⟨"react-hooks/rules-of-hooks", List.mem_cons_self _ _, "rules-of-hooks".data,
      by decide, rfl⟩

theorem lint_rules_refer_to_plugins_witness :
    ∃ ns name : List Char,
      "react-hooks/immutability".data = ns ++ '/' :: name ∧ name ≠ [] ∧ '/' ∉ name ∧
      String.mk ns ∈ [("react-hooks", ())].map Prod.fst ∧ ns = "react-hooks".data :=
  (lint_rules_refer_to_plugins () _ (List.mem_singleton.2 rfl)).1
    "react-hooks/immutability" (by decide)

/-! ## The build configuration -/

/-- C3: the base field of the build configuration is exactly the string
`/rescript-test/`: it begins with `/`, ends with `/`, and between the two
separators lies the single segment `rescript-test`. -/
theorem base_is_deploy_subpath {P : Type} (tailwindcss : Unit → P)
    (react : ReactOptions → P) :
    (viteConfig tailwindcss react).base = "/rescript-test/" ∧
      (viteConfig tailwindcss react).base.data.head? = some '/' ∧
      (viteConfig tailwindcss react).base.data.getLast? = some '/' ∧
      segments (viteConfig tailwindcss react).base.data = [[], "rescript-test".data, []] := by
  refine ⟨rfl, ?_, ?_, ?_⟩
  · show "/rescript-test/".data.head? = some '/'
    decide
  · show "/rescript-test/".data.getLast? = some '/'
    decide
  · show segments "/rescript-test/".data = [[], "rescript-test".data, []]
    decide

/-- C4: the watcher-exclusion list is exactly `**/lib/bs/**`,
`**/lib/ocaml/**`, `**/lib/rescript.lock`: three entries without duplicates,
each of which matches only paths with a directory segment `lib`, so that a
path without a segment `lib` matches none of them. -/
theorem ignored_only_under_lib {P : Type} (tailwindcss : Unit → P)
    (react : ReactOptions → P) :
    (viteConfig tailwindcss react).server.watch.ignored
        = ["**/lib/bs/**", "**/lib/ocaml/**", "**/lib/rescript.lock"] ∧
      (viteConfig tailwindcss react).server.watch.ignored.length = 3 ∧
      (viteConfig tailwindcss react).server.watch.ignored.Nodup ∧
      (∀ g ∈ (viteConfig tailwindcss react).server.watch.ignored, ∀ p : String,
        globMatch g p = true → underLibDir p) ∧
      (∀ p : String, "lib".data ∉ segments p.data →
        ∀ g ∈ (viteConfig tailwindcss react).server.watch.ignored,
          globMatch g p = false) := by
  have hall : ∀ g ∈ (viteConfig tailwindcss react).server.watch.ignored, ∀ p : String,
      globMatch g p = true → underLibDir p := fun g hg p h => ignored_underLibDir g hg p h
  refine ⟨rfl, rfl, ?_, hall, ?_⟩
  · show (["**/lib/bs/**", "**/lib/ocaml/**", "**/lib/rescript.lock"] : List String).Nodup
    decide
  · intro p hp g hg
    cases hm : globMatch g p with
    | false => rfl
    | true =>
      obtain ⟨pre, post, hseg, _⟩ := hall g hg p hm
      exact absurd (by rw [hseg]; simp) hp

theorem ignored_only_under_lib_witness : underLibDir "/app/lib/bs/src/App.cmj" :=
  (ignored_only_under_lib (fun _ => ()) (fun _ => ())).2.2.2.1 "**/lib/bs/**"
    (List.mem_cons_self _ _) "/app/lib/bs/src/App.cmj" (by decide)

/-- C5, as stated, fails: not every entry of the watcher-exclusion list has
the form `<dir>/**`; the entry `**/lib/rescript.lock` does not end in `/**`. -/
theorem not_all_ignored_directory_globs :
    ¬ ∀ g ∈ (viteConfig (fun _ => ()) (fun _ => ())).server.watch.ignored,
        isDirectoryGlob g := by
  intro h
  obtain ⟨dir, _, hd⟩ := h "**/lib/rescript.lock" (by decide)
  have hsuf : "/**".data <:+ "**/lib/rescript.lock".data := ⟨dir, hd.symm⟩
  exact absurd hsuf (by decide)

/-- C5, amended: the first two entries of the watcher-exclusion list,
`**/lib/bs/**` and `**/lib/ocaml/**`, have the form `<dir>/**`; the third
entry, `**/lib/rescript.lock`, does not: its last segment is the file name
`rescript.lock`, written without a wildcard, under a segment `lib`. -/
theorem ignored_directory_globs_and_lock_file {P : Type} (tailwindcss : Unit → P)
    (react : ReactOptions → P) :
    ∃ g₁ g₂ g₃ : String,
      (viteConfig tailwindcss react).server.watch.ignored = [g₁, g₂, g₃] ∧
      isDirectoryGlob g₁ ∧ isDirectoryGlob g₂ ∧ ¬ isDirectoryGlob g₃ ∧
      segments g₃.data = [['*', '*'], "lib".data, "rescript.lock".data] ∧
      '*' ∉ "rescript.lock".data := by
  refine ⟨"**/lib/bs/**", "**/lib/ocaml/**", "**/lib/rescript.lock", rfl, ?_, ?_, ?_,
    by decide, by decide⟩
  · exact ⟨"**/lib/bs".data, by decide, by decide⟩
  · exact ⟨"**/lib/ocaml".data, by decide, by decide⟩
  · rintro ⟨dir, _, hd⟩
    have hsuf : "/**".data <:+ "**/lib/rescript.lock".data := ⟨dir, hd.symm⟩
    exact absurd hsuf (by decide)

/-- C8: the plugins field of the build configuration is the sequence of
exactly two plugin instances: the result of `tailwindcss()` first, then the
result of `react` called with the options record whose `include` list is
`["**/*.res.mjs"]`; `react` is called with that record and no other. -/
theorem plugins_exact {P : Type} (tailwindcss : Unit → P) (react : ReactOptions → P) :
    (viteConfig tailwindcss react).plugins
        = [tailwindcss (), react { «include» := ["**/*.res.mjs"] }] ∧
      (viteConfig tailwindcss react).plugins.length = 2 ∧
      reactCalls = [{ «include» := ["**/*.res.mjs"] }] :=
  ⟨rfl, rfl, rfl⟩

/-- C9: every path that matches a files glob of the lint override also
matches an include glob handed to `react`; the converse fails, since
`lib/x.res.mjs` matches the include glob and not the lint glob. -/
theorem lint_files_within_react_include {P : Type} (reactHooks : P) (g : String)
    (hg : ∃ o ∈ eslintConfig reactHooks, g ∈ o.files)
    (p : String) (h : globMatch g p = true) :
    (∃ opts ∈ reactCalls, ∃ i ∈ opts.«include», globMatch i p = true) ∧
      (∃ opts ∈ reactCalls, ∃ i ∈ opts.«include», globMatch i "lib/x.res.mjs" = true) ∧
      globMatch g "lib/x.res.mjs" = false := by
  obtain ⟨o, ho, hgo⟩ := hg
  simp only [eslintConfig, List.mem_singleton] at ho
  subst ho
  simp only [List.mem_singleton] at hgo
  subst hgo
  have hmem : ({ «include» := ["**/*.res.mjs"] } : ReactOptions) ∈ reactCalls := by decide
  exact ⟨⟨_, hmem, "**/*.res.mjs", List.mem_singleton.2 rfl, lintGlob_imp_includeGlob p h⟩,
    ⟨_, hmem, "**/*.res.mjs", List.mem_singleton.2 rfl, by decide⟩, by decide⟩

theorem lint_files_within_react_include_witness :
    (∃ opts ∈ reactCalls, ∃ i ∈ opts.«include», globMatch i "src/App.res.mjs" = true) ∧
      (∃ opts ∈ reactCalls, ∃ i ∈ opts.«include», globMatch i "lib/x.res.mjs" = true) ∧
      globMatch "src/**/*.res.mjs" "lib/x.res.mjs" = false :=
  lint_files_within_react_include () "src/**/*.res.mjs"
    ⟨_, List.mem_singleton.2 rfl, List.mem_singleton.2 rfl⟩ "src/App.res.mjs" (by decide)

end RescriptTest
